import Mathlib

/-!
Shallow embedding of `src/facerecognition.py`, a two-phase face-identification
demo: an enrollment loader (`load_training_data`) that builds a table of
(name, embedding) pairs from a photo directory, and a live matcher loop
(`main`) that classifies query embeddings against that table.

The external `face_recognition` / `cv2` libraries are opaque third-party
dependencies (the spec treats them as a black box); their behavior enters the
model as abstract environment functions, modelled from the spec's external
collaborator contract.  Strings are modelled as `List Char` internally;
embeddings as rational vectors.
-/

/-- An embedding: a fixed-length numeric feature vector, modelled with
rational entries. -/
abbrev Emb := List ℚ

/-- Python `str.lower` restricted to ASCII, on the character list of
a string. -/
def pyLowerL (l : List Char) : List Char := l.map Char.toLower

/-- Python tuple-`endswith` used at line 33 of the source:
`filename.lower().endswith((".jpg", ".png", ".jpeg"))`,
on character lists. -/
def isImageFileL (l : List Char) : Bool :=
  (".jpg".toList.isSuffixOf (pyLowerL l)) ||
  (".png".toList.isSuffixOf (pyLowerL l)) ||
  (".jpeg".toList.isSuffixOf (pyLowerL l))

/-- The image-extension filter applied to each directory entry
(source line 33). -/
def isImageFile (f : String) : Bool := isImageFileL f.toList

/-- Index of the last occurrence of `c` in `l`, if any
(Python `str.rfind`). -/
def lastIdxOf (c : Char) : List Char → Option Nat
  | [] => none
  | a :: rest =>
    match lastIdxOf c rest with
    | some i => some (i + 1)
    | none => if a = c then some 0 else none

/-- The stem component of CPython `os.path.splitext` for a plain filename
(no path separator): everything before the last dot, provided some character
strictly before that dot is not itself a dot; otherwise the whole name
(leading dots are not an extension). -/
def pySplitextStemL (p : List Char) : List Char :=
  match lastIdxOf '.' p with
  | none => p
  | some d => if (p.take d).any (fun c => c ≠ '.') then p.take d else p

/-- Python `str.replace("_", " ")` on character lists. -/
def pyReplaceUnderscoreL (l : List Char) : List Char :=
  l.map (fun c => if c = '_' then ' ' else c)

/-- Worker for Python `str.title` (ASCII): a letter is uppercased when the
previous character was not a letter, lowercased otherwise; non-letters pass
through and reset the word boundary. -/
def pyTitleAux : Bool → List Char → List Char
  | _, [] => []
  | prevCased, c :: cs =>
    if c.isAlpha then
      (if prevCased then c.toLower else c.toUpper) :: pyTitleAux true cs
    else
      c :: pyTitleAux false cs

/-- Python `str.title` (ASCII) on character lists. -/
def pyTitleL (l : List Char) : List Char := pyTitleAux false l

/-- Name derivation of source line 35,
`os.path.splitext(filename)[0].replace("_", " ").title()`,
on character lists. -/
def deriveNameL (l : List Char) : List Char :=
  pyTitleL (pyReplaceUnderscoreL (pySplitextStemL l))

/-- Name derivation of source line 35 on strings. -/
def deriveName (filename : String) : String :=
  String.mk (deriveNameL filename.toList)

/-! ## The live matcher (source lines 88-99)

`main` compares each detected face's embedding against the enrolled
encodings.  The distance metric itself is computed by the external library
(`face_recognition.face_distance`, Euclidean over the encoder's feature
space per the spec); it is passed in as an abstract function `dist`. -/

/-- Modelled from the spec: `face_recognition.face_distance` returns, for
each known encoding, its distance to the query embedding under the encoder's
metric `dist` (Euclidean per the spec), in enrollment order. -/
def face_distance (dist : Emb → Emb → ℚ) (known : List Emb) (q : Emb) : List ℚ :=
  known.map (fun e => dist e q)

/-- Modelled from the spec: `face_recognition.compare_faces` marks each
known encoding as a candidate match exactly when its distance to the query
is below the tolerance threshold. -/
def compare_faces (dist : Emb → Emb → ℚ) (known : List Emb) (q : Emb)
    (tolerance : ℚ) : List Bool :=
  (face_distance dist known q).map (fun d => decide (d < tolerance))

/-- Python `numpy.argmin` on a list of rationals: index of the minimum value,
first occurrence on ties. -/
def np_argmin : List ℚ → Nat
  | [] => 0
  | [_] => 0
  | d :: rest =>
    let j := np_argmin rest
    if d ≤ rest.getD j 0 then 0 else j + 1

/-- The per-face matching step of `main` (source lines 88-99): compare
against the enrolled encodings at tolerance 0.5, take the argmin of the
distances when there are any, and report the name at that index when it is
a candidate match, else "Unknown". -/
def matchFace (dist : Emb → Emb → ℚ) (knownEncs : List Emb)
    (knownNames : List String) (q : Emb) : String :=
  let matchesList := compare_faces dist knownEncs q (1 / 2)
  let face_distances := face_distance dist knownEncs q
  if 0 < face_distances.length then
    let best := np_argmin face_distances
    if matchesList.getD best false then knownNames.getD best "Unknown" else "Unknown"
  else "Unknown"

/-! ## The enrollment loader (source lines 17-59)

`load_training_data` walks a directory listing, derives a display name per
image file, asks the external library for encodings (with one upsampled
retry), and accumulates encodings and names.  The filesystem and the
library are modelled by an environment.  Python exceptions raised by the
library (e.g. an unreadable image file in `load_image_file`) are modelled
with `Except`: the source has no try/except, so an error propagates. -/

/-- The loader's environment: the directory state and the external
library's behavior on this run.  Images and face boxes are opaque ids.
`loadImage` models `face_recognition.load_image_file` (which raises on an
unreadable file); `face_encodings img ob` models
`face_recognition.face_encodings(image)` when `ob = none` and
`face_recognition.face_encodings(image, known_face_locations=locs)` when
`ob = some locs`; `face_locations img u m` models
`face_recognition.face_locations(image, number_of_times_to_upsample=u,
model=m)`. -/
structure LoaderEnv where
  dirExists : Bool
  listing : List String
  loadImage : String → Except String Nat
  face_encodings : Nat → Option (List Nat) → List Emb
  face_locations : Nat → Nat → String → List Nat

/-- The body of the per-file loop of `load_training_data` (source lines
32-56) for one directory entry, acting on the accumulated
(encodings, names) pair.  Alongside the result it returns the trace of
`face_locations` calls made for this file, each recorded as its
(upsample, model) arguments, so that the retry behavior is observable. -/
def processFile (env : LoaderEnv) (acc : List Emb × List String)
    (filename : String) :
    Except String ((List Emb × List String) × List (Nat × String)) :=
  if isImageFile filename then
    match env.loadImage filename with
    | .error e => .error e
    | .ok image =>
      let name := deriveName filename
      let encodings1 := env.face_encodings image none
      let attempt :=
        if encodings1.isEmpty then
          let locs := env.face_locations image 2 "hog"
          (env.face_encodings image (some locs), [(2, "hog")])
        else (encodings1, ([] : List (Nat × String)))
      match attempt.1 with
      | e :: _ => .ok ((acc.1 ++ [e], acc.2 ++ [name]), attempt.2)
      | [] => .ok (acc, attempt.2)
  else .ok (acc, [])

/-- The loader `load_training_data` (source lines 17-59): if the directory is missing
it is created and two empty lists are returned; otherwise the per-file loop
runs over the listing, any library exception propagating (there is no
try/except in the source).  Returns (known_encodings, known_names). -/
def load_training_data (env : LoaderEnv) :
    Except String (List Emb × List String) :=
  if !env.dirExists then .ok ([], [])
  else env.listing.foldlM (fun acc f => (processFile env acc f).map Prod.fst)
    ([], [])

/-- Whether the `os.makedirs` call at source line 26 runs: exactly when the
directory does not exist. -/
def dir_created (env : LoaderEnv) : Bool := !env.dirExists

/-- The encoding `load_training_data` would enroll for a single file, if
any: the FIRST encoding of the default attempt, else the FIRST encoding of
the upsampled retry, else none (also none when the image fails to load). -/
def selEnc (env : LoaderEnv) (f : String) : Option Emb :=
  match env.loadImage f with
  | .error _ => none
  | .ok image =>
    match env.face_encodings image none with
    | e :: _ => some e
    | [] =>
      match env.face_encodings image
          (some (env.face_locations image 2 "hog")) with
      | e :: _ => some e
      | [] => none

/-- The directory entries that `load_training_data` enrolls: image files
for which some attempt produces an encoding, in listing order. -/
def enrolledFiles (env : LoaderEnv) : List String :=
  if env.dirExists then
    env.listing.filter (fun f => isImageFile f && (selEnc env f).isSome)
  else []

/-! ## The live loop's exit paths (source lines 73-113)

`main` loops `while True`: a failed `video_capture.read()` breaks out, the
`q` key breaks out, and otherwise the next frame is processed.  The body's
library calls can raise, and the source has no try/finally, so an exception
skips the `video_capture.release()` at line 113.  An iteration's outcome is
abstracted as a step; `runLoop` consumes the trace of outcomes and reports
whether `release()` ran, or `none` when the trace ends with the loop still
running. -/

/-- The observable outcome of one iteration of the `while True` loop:
the capture fails (`ret` falsy), the body raises an exception, the body
completes and the quit key was pressed, or the body completes and the loop
continues. -/
inductive CaptureStep where
  | failCapture : CaptureStep
  | frameRaise : CaptureStep
  | frameQuit : CaptureStep
  | frameOk : CaptureStep
deriving DecidableEq, Repr

/-- The `while True` loop of `main` together with the `release()` call that
follows it (source lines 73-113): returns `some released`, where `released`
records whether `video_capture.release()` executed on that exit path, and
`none` when the step trace is exhausted with the loop still running. -/
def runLoop : List CaptureStep → Option Bool
  | [] => none
  | CaptureStep.failCapture :: _ => some true
  | CaptureStep.frameRaise :: _ => some false
  | CaptureStep.frameQuit :: _ => some true
  | CaptureStep.frameOk :: rest => runLoop rest

/-! ## Lemmas about `np_argmin` -/

/-- The argmin index is in range on a nonempty list. -/
theorem np_argmin_lt_length (l : List ℚ) (h : l ≠ []) :
    np_argmin l < l.length := by
  induction l with
  | nil => simp at h
  | cons d rest ih =>
    cases rest with
    | nil => simp [np_argmin]
    | cons e t =>
      have hr := ih (by simp)
      simp only [np_argmin]
      split
      · simp
      · simpa [Nat.succ_lt_succ_iff] using hr

/-- The value at the argmin index is a lower bound for every entry. -/
theorem np_argmin_le (l : List ℚ) (j : Nat) (hj : j < l.length) :
    l.getD (np_argmin l) 0 ≤ l.getD j 0 := by
  induction l generalizing j with
  | nil => simp at hj
  | cons d rest ih =>
    cases rest with
    | nil =>
      cases j with
      | zero => simp [np_argmin]
      | succ k => simp at hj
    | cons e t =>
      simp only [np_argmin]
      by_cases hc : d ≤ (e :: t).getD (np_argmin (e :: t)) 0
      · rw [if_pos hc]
        cases j with
        | zero => simp
        | succ k =>
          rw [List.getD_cons_zero, List.getD_cons_succ]
          exact le_trans hc (ih k (Nat.lt_of_succ_lt_succ hj))
      · rw [if_neg hc]
        cases j with
        | zero =>
          rw [List.getD_cons_succ, List.getD_cons_zero]
          exact le_of_lt (lt_of_not_le hc)
        | succ k =>
          rw [List.getD_cons_succ, List.getD_cons_succ]
          exact ih k (Nat.lt_of_succ_lt_succ hj)

/-- Ties break to the first occurrence: every entry strictly before the
argmin index is strictly larger than the minimum. -/
theorem np_argmin_first (l : List ℚ) (j : Nat) (hj : j < np_argmin l) :
    l.getD (np_argmin l) 0 < l.getD j 0 := by
  induction l generalizing j with
  | nil => simp [np_argmin] at hj
  | cons d rest ih =>
    cases rest with
    | nil => simp [np_argmin] at hj
    | cons e t =>
      simp only [np_argmin] at hj ⊢
      by_cases hc : d ≤ (e :: t).getD (np_argmin (e :: t)) 0
      · rw [if_pos hc] at hj
        exact absurd hj (Nat.not_lt_zero j)
      · rw [if_neg hc] at hj ⊢
        cases j with
        | zero =>
          rw [List.getD_cons_succ, List.getD_cons_zero]
          exact lt_of_not_le hc
        | succ k =>
          rw [List.getD_cons_succ, List.getD_cons_succ]
          exact ih k (Nat.lt_of_succ_lt_succ hj)

/-- Reading a mapped list through `getD` at an in-range index applies the
function to the original entry. -/
theorem getD_map_of_lt {α β : Type} (f : α → β) (l : List α) (i : Nat)
    (da : α) (db : β) (hi : i < l.length) :
    (l.map f).getD i db = f (l.getD i da) := by
  induction l generalizing i with
  | nil => simp at hi
  | cons a rest ih =>
    cases i with
    | zero => simp
    | succ k =>
      simp only [List.map_cons, List.getD_cons_succ]
      exact ih k (Nat.lt_of_succ_lt_succ hi)

/-! ## Claims about the matcher -/

/-- C1: For every detected face and every non-empty EnrollmentSet, the
matcher selects the enrolled record with the globally minimum distance to
the query embedding (ties broken by the first occurrence in insertion
order), and reports that record's name exactly when its distance is below
the tolerance threshold 0.5, else "Unknown". -/
theorem matchFace_global_argmin_threshold (dist : Emb → Emb → ℚ)
    (knownEncs : List Emb) (knownNames : List String) (q : Emb)
    (hne : knownEncs ≠ []) (hlen : knownNames.length = knownEncs.length) :
    (∀ j, j < (face_distance dist knownEncs q).length →
      (face_distance dist knownEncs q).getD
          (np_argmin (face_distance dist knownEncs q)) 0 ≤
        (face_distance dist knownEncs q).getD j 0) ∧
    (∀ j, j < np_argmin (face_distance dist knownEncs q) →
      (face_distance dist knownEncs q).getD
          (np_argmin (face_distance dist knownEncs q)) 0 <
        (face_distance dist knownEncs q).getD j 0) ∧
    matchFace dist knownEncs knownNames q =
      (if (face_distance dist knownEncs q).getD
            (np_argmin (face_distance dist knownEncs q)) 0 < 1 / 2
        then knownNames.getD (np_argmin (face_distance dist knownEncs q))
          "Unknown"
        else "Unknown") := by
  have hne2 : face_distance dist knownEncs q ≠ [] := by
    simp [face_distance, hne]
  have hpos : 0 < (face_distance dist knownEncs q).length :=
    List.length_pos.mpr hne2
  have hblt := np_argmin_lt_length _ hne2
  refine ⟨fun j hj => np_argmin_le _ j hj, fun j hj => np_argmin_first _ j hj, ?_⟩
  have hbool : (List.map (fun d => decide (d < 1 / 2))
        (face_distance dist knownEncs q)).getD
        (np_argmin (face_distance dist knownEncs q)) false =
      decide ((face_distance dist knownEncs q).getD
        (np_argmin (face_distance dist knownEncs q)) 0 < 1 / 2) :=
    getD_map_of_lt _ _ _ 0 false hblt
  simp only [matchFace, compare_faces]
  rw [if_pos hpos]
  simp only [hbool]
  by_cases hd : (face_distance dist knownEncs q).getD
      (np_argmin (face_distance dist knownEncs q)) 0 < 1 / 2
  · simp [hd]
  · simp [hd]

/-- C1 witness: a two-record enrollment with a concrete (squared) distance
function; the nearer record is index 1 and its distance is below the
threshold. -/
theorem matchFace_global_argmin_threshold_witness :
    matchFace (fun a b => (a.headD 0 - b.headD 0) ^ 2)
        [[3], [0]] ["Alice", "Bob"] [1 / 10] =
      (if (face_distance (fun a b => (a.headD 0 - b.headD 0) ^ 2)
              [[3], [0]] [1 / 10]).getD
            (np_argmin (face_distance (fun a b => (a.headD 0 - b.headD 0) ^ 2)
              [[3], [0]] [1 / 10])) 0 < 1 / 2
        then ["Alice", "Bob"].getD
          (np_argmin (face_distance (fun a b => (a.headD 0 - b.headD 0) ^ 2)
            [[3], [0]] [1 / 10])) "Unknown"
        else "Unknown") :=
  (matchFace_global_argmin_threshold (fun a b => (a.headD 0 - b.headD 0) ^ 2)
    [[3], [0]] ["Alice", "Bob"] [1 / 10] (by decide) (by decide)).2.2

/-- C2: For every query embedding and every name table, when the enrolled
encoding list is empty the match result is "Unknown", the distance list is
empty (no distance is computed) and the candidate list is empty, and the
matcher never reaches the argmin branch (its guard fails). -/
theorem matchFace_empty_enrollment (dist : Emb → Emb → ℚ)
    (knownNames : List String) (q : Emb) :
    matchFace dist [] knownNames q = "Unknown" ∧
    face_distance dist [] q = [] ∧
    compare_faces dist [] q (1 / 2) = [] ∧
    ¬ 0 < (face_distance dist [] q).length :=
  ⟨rfl, rfl, rfl, by simp [face_distance]⟩

/-! ## Claims about the enrollment loader -/

/-- Helper: a run of the per-file loop over entries none of which is an
image file leaves the accumulator untouched and cannot fail. -/
theorem foldlM_skip_non_images (env : LoaderEnv) (l : List String)
    (acc : List Emb × List String)
    (h : ∀ f ∈ l, isImageFile f = false) :
    l.foldlM (fun a f => (processFile env a f).map Prod.fst) acc = .ok acc := by
  induction l generalizing acc with
  | nil => rfl
  | cons f rest ih =>
    have hf : isImageFile f = false := h f (List.mem_cons_self f rest)
    have hrest : ∀ g ∈ rest, isImageFile g = false :=
      fun g hg => h g (List.mem_cons_of_mem f hg)
    rw [List.foldlM_cons]
    have hstep : (processFile env acc f).map Prod.fst = .ok acc := by
      simp [processFile, hf, Except.map]
    rw [hstep]
    exact ih acc hrest

/-- C3: For every directory path that does not exist, the loader runs the
directory-creation branch and returns two empty sequences without raising;
and an existing directory with no image files also yields two empty
sequences without raising. -/
theorem load_training_data_empty_cases (env : LoaderEnv) :
    (env.dirExists = false →
      load_training_data env = .ok ([], []) ∧ dir_created env = true) ∧
    (env.dirExists = true → (∀ f ∈ env.listing, isImageFile f = false) →
      load_training_data env = .ok ([], [])) := by
  constructor
  · intro h
    constructor
    · simp [load_training_data, h]
    · simp [dir_created, h]
  · intro h hnone
    simp only [load_training_data, h]
    exact foldlM_skip_non_images env env.listing ([], []) hnone

/-- C3 witness: a missing directory, and an existing directory whose only
entry is not an image file. -/
theorem load_training_data_empty_cases_witness :
    (load_training_data
        { dirExists := false, listing := [], loadImage := fun _ => .error "",
          face_encodings := fun _ _ => [], face_locations := fun _ _ _ => [] }
        = .ok ([], []) ∧
      dir_created
        { dirExists := false, listing := [], loadImage := fun _ => .error "",
          face_encodings := fun _ _ => [], face_locations := fun _ _ _ => [] }
        = true) ∧
    load_training_data
        { dirExists := true, listing := ["notes.txt"],
          loadImage := fun _ => .error "",
          face_encodings := fun _ _ => [], face_locations := fun _ _ _ => [] }
      = .ok ([], []) := by
  constructor
  · exact (load_training_data_empty_cases _).1 (by rfl)
  · exact (load_training_data_empty_cases _).2 (by rfl)
      (by intro f hf; simp at hf; subst hf; decide)

/-- C5: For every enrollment image file in which no face is found even by
the upsampled retry, the per-file loop returns the accumulator unchanged
(the file is skipped), so the encoding and name sequences have the same
lengths before and after that file. -/
theorem processFile_faceless_skipped (env : LoaderEnv)
    (acc : List Emb × List String) (f : String) (img : Nat)
    (hf : isImageFile f = true) (hload : env.loadImage f = .ok img)
    (h1 : env.face_encodings img none = [])
    (h2 : env.face_encodings img
      (some (env.face_locations img 2 "hog")) = []) :
    processFile env acc f = .ok (acc, [(2, "hog")]) ∧
    (∀ encs2 names2 t,
      processFile env acc f = .ok ((encs2, names2), t) →
      encs2.length = acc.1.length ∧ names2.length = acc.2.length) := by
  have heq : processFile env acc f = .ok (acc, [(2, "hog")]) := by
    simp [processFile, hf, hload, h1, h2]
  refine ⟨heq, ?_⟩
  intro encs2 names2 t ht
  rw [heq] at ht
  cases ht
  exact ⟨rfl, rfl⟩

/-- C5 witness: a concrete environment where both attempts find no face in
the single image file. -/
theorem processFile_faceless_skipped_witness :
    processFile
        { dirExists := true, listing := ["ghost.jpg"],
          loadImage := fun _ => .ok 7,
          face_encodings := fun _ _ => [], face_locations := fun _ _ _ => [] }
        ([[1]], ["Seen"]) "ghost.jpg"
      = .ok (([[1]], ["Seen"]), [(2, "hog")]) :=
  (processFile_faceless_skipped _ ([[1]], ["Seen"]) "ghost.jpg" 7
    (by decide) (by rfl) (by rfl) (by rfl)).1

/-- C6: For every enrollment image file whose default-sensitivity attempt
yields no encodings, the per-file loop performs exactly one retry, calling
the detector with upsampling factor 2 and the "hog" model (the recorded
detector-call trace is exactly [(2, "hog")]); and whenever either attempt
yields encodings, exactly the FIRST encoding is appended together with the
derived name (no retry call is made when the first attempt succeeds: the
trace is then empty). -/
theorem processFile_retry_and_first_encoding (env : LoaderEnv)
    (acc : List Emb × List String) (f : String) (img : Nat)
    (hf : isImageFile f = true) (hload : env.loadImage f = .ok img) :
    (∀ e t, env.face_encodings img none = e :: t →
      processFile env acc f =
        .ok ((acc.1 ++ [e], acc.2 ++ [deriveName f]), [])) ∧
    (env.face_encodings img none = [] →
      ∀ e t, env.face_encodings img
          (some (env.face_locations img 2 "hog")) = e :: t →
        processFile env acc f =
          .ok ((acc.1 ++ [e], acc.2 ++ [deriveName f]), [(2, "hog")])) := by
  constructor
  · intro e t h1
    simp [processFile, hf, hload, h1]
  · intro h1 e t h2
    simp [processFile, hf, hload, h1, h2]

/-- C6 witness: one environment whose first attempt fails and whose retry
finds two encodings; only the first is appended, after one (2, "hog")
detector call. -/
theorem processFile_retry_and_first_encoding_witness :
    processFile
        { dirExists := true, listing := ["tanjiro_kamado.jpg"],
          loadImage := fun _ => .ok 3,
          face_encodings := fun _ ob => if ob.isSome then [[5], [9]] else [],
          face_locations := fun _ _ _ => [11] }
        ([], []) "tanjiro_kamado.jpg"
      = .ok (([[5]], [deriveName "tanjiro_kamado.jpg"]), [(2, "hog")]) := by
  have h := (processFile_retry_and_first_encoding
    { dirExists := true, listing := ["tanjiro_kamado.jpg"],
      loadImage := fun _ => .ok 3,
      face_encodings := fun _ ob => if ob.isSome then [[5], [9]] else [],
      face_locations := fun _ _ _ => [11] }
    ([], []) "tanjiro_kamado.jpg" 3 (by decide) (by rfl)).2 (by rfl)
    [5] [[9]] (by rfl)
  simpa using h

/-- Bind on `Except` applied to a success reduces to the continuation. -/
theorem except_ok_bind {ε α β : Type} (a : α) (k : α → Except ε β) :
    (Except.ok a >>= k) = k a := rfl

/-- Bind on `Except` applied to an error propagates the error. -/
theorem except_error_bind {ε α β : Type} (e : ε) (k : α → Except ε β) :
    ((Except.error e : Except ε α) >>= k) = Except.error e := rfl

/-- C7 counterexample: an environment with a single unreadable image file.
The loader has no try/except, so the load error escapes
`load_training_data` instead of being skipped: the claim that a bad or
unreadable image never aborts the loader is false. -/
theorem load_training_data_unreadable_counterexample :
    load_training_data
        { dirExists := true, listing := ["bad.jpg"],
          loadImage := fun _ => .error "unreadable image",
          face_encodings := fun _ _ => [], face_locations := fun _ _ _ => [] }
      = .error "unreadable image" := by
  rfl

/-- C7 amended: a faceless enrollment image (no face after both attempts)
is skipped without aborting the loader, but an unreadable enrollment image
raises out of `load_training_data` and aborts it: the error from
`load_image_file` propagates past any files remaining in the listing. -/
theorem load_training_data_per_item_failures :
    (∀ (env : LoaderEnv) (acc : List Emb × List String) (g : String)
        (img : Nat),
      isImageFile g = true → env.loadImage g = .ok img →
      env.face_encodings img none = [] →
      env.face_encodings img (some (env.face_locations img 2 "hog")) = [] →
      processFile env acc g = .ok (acc, [(2, "hog")])) ∧
    (∀ (env : LoaderEnv) (pre post : List String) (f e : String)
        (acc : List Emb × List String),
      env.dirExists = true → env.listing = pre ++ f :: post →
      isImageFile f = true → env.loadImage f = .error e →
      pre.foldlM (fun a g => (processFile env a g).map Prod.fst) ([], [])
        = .ok acc →
      load_training_data env = .error e) := by
  constructor
  · intro env acc g img hg hload h1 h2
    simp [processFile, hg, hload, h1, h2]
  · intro env pre post f e acc hdir hl hf he hpre
    simp only [load_training_data, hdir, Bool.not_true, Bool.false_eq_true,
      if_false]
    have hstep : (processFile env acc f).map Prod.fst = .error e := by
      simp [processFile, hf, he, Except.map]
    rw [hl, List.foldlM_append, hpre, except_ok_bind, List.foldlM_cons, hstep,
      except_error_bind]

/-- C7 amended witness: a directory whose first entry is a non-image file
and whose second entry is an unreadable image; the loader aborts with the
load error. -/
theorem load_training_data_per_item_failures_witness :
    load_training_data
        { dirExists := true, listing := ["readme.txt", "bad.jpg"],
          loadImage := fun g => if g = "bad.jpg" then .error "unreadable"
            else .ok 0,
          face_encodings := fun _ _ => [], face_locations := fun _ _ _ => [] }
      = .error "unreadable" :=
  load_training_data_per_item_failures.2
    { dirExists := true, listing := ["readme.txt", "bad.jpg"],
      loadImage := fun g => if g = "bad.jpg" then .error "unreadable"
        else .ok 0,
      face_encodings := fun _ _ => [], face_locations := fun _ _ _ => [] }
    ["readme.txt"] [] "bad.jpg" "unreadable" ([], [])
    (by rfl) (by rfl) (by rfl) (by rfl) (by rfl)

/-- C8 counterexample: a trace whose first iteration's body raises an
exception.  The loop exits abnormally and `video_capture.release()` (which
only follows the loop, with no try/finally) is not executed, so the claim
that the handle is released on every exit path is false. -/
theorem runLoop_raise_counterexample :
    runLoop [CaptureStep.frameRaise] = some false := rfl

/-- C8 amended: a failed frame capture terminates the loop gracefully and
the device handle is released on both normal exit paths (capture failure
and the quit key); on an abnormal termination path (an exception raised by
the loop body) the handle is NOT released, since `release()` only follows
the loop. -/
theorem runLoop_release_on_normal_exits (pre : List CaptureStep)
    (hpre : ∀ s ∈ pre, s = CaptureStep.frameOk) :
    runLoop (pre ++ [CaptureStep.failCapture]) = some true ∧
    runLoop (pre ++ [CaptureStep.frameQuit]) = some true ∧
    runLoop (pre ++ [CaptureStep.frameRaise]) = some false := by
  induction pre with
  | nil => exact ⟨rfl, rfl, rfl⟩
  | cons s rest ih =>
    have hs : s = CaptureStep.frameOk := hpre s (List.mem_cons_self s rest)
    subst hs
    have hrest := ih (fun t ht => hpre t (List.mem_cons_of_mem _ ht))
    simpa [runLoop] using hrest

/-- C8 amended witness: one successful frame followed by each kind of loop
exit. -/
theorem runLoop_release_on_normal_exits_witness :
    runLoop ([CaptureStep.frameOk] ++ [CaptureStep.failCapture])
      = some true ∧
    runLoop ([CaptureStep.frameOk] ++ [CaptureStep.frameQuit])
      = some true ∧
    runLoop ([CaptureStep.frameOk] ++ [CaptureStep.frameRaise])
      = some false :=
  runLoop_release_on_normal_exits [CaptureStep.frameOk]
    (by intro s hs; simpa using hs)

/-! ## Claim about name derivation -/

/-- The last occurrence of `c` in `l1 ++ l2` when `l2` contains one: it is
the occurrence in `l2`, shifted by the length of `l1`. -/
theorem lastIdxOf_append_some (c : Char) (l1 l2 : List Char) (i : Nat)
    (h : lastIdxOf c l2 = some i) :
    lastIdxOf c (l1 ++ l2) = some (l1.length + i) := by
  induction l1 with
  | nil => simpa using h
  | cons a rest ih =>
    rw [List.cons_append, lastIdxOf, ih]
    show some (rest.length + i + 1) = some ((a :: rest).length + i)
    congr 1
    simp only [List.length_cons]
    omega

/-- C4: For every filename made of a nonempty, dot-free stem followed by an
extension whose only dot is its leading one (such as ".jpg", ".jpeg" or
".png"), the derived display name is the stem with every underscore
replaced by a space and the result title-cased. -/
theorem deriveName_stem_underscore_title (s extL : List Char) (hs : s ≠ [])
    (hd : '.' ∉ s) (hext : lastIdxOf '.' extL = some 0) :
    deriveName (String.mk (s ++ extL)) =
      String.mk (pyTitleL (pyReplaceUnderscoreL s)) := by
  have hlast : lastIdxOf '.' (s ++ extL) = some s.length := by
    have := lastIdxOf_append_some '.' s extL 0 hext
    simpa using this
  have hstem : pySplitextStemL (s ++ extL) = s := by
    simp only [pySplitextStemL, hlast]
    rw [List.take_left]
    cases s with
    | nil => exact absurd rfl hs
    | cons a t =>
      have ha : a ≠ '.' := fun h => hd (h ▸ List.mem_cons_self a t)
      simp [ha]
  show String.mk (deriveNameL (String.mk (s ++ extL)).toList) = _
  have htl : (String.mk (s ++ extL)).toList = s ++ extL := rfl
  rw [htl]
  simp only [deriveNameL, hstem]

/-- C4 witness: the filename "tanjiro_kamado.jpg" in stem-plus-extension
form, and its concrete evaluation to "Tanjiro Kamado". -/
theorem deriveName_stem_underscore_title_witness :
    deriveName (String.mk ("tanjiro_kamado".toList ++ ".jpg".toList)) =
      String.mk (pyTitleL (pyReplaceUnderscoreL "tanjiro_kamado".toList)) ∧
    deriveName "tanjiro_kamado.jpg" = "Tanjiro Kamado" := by
  constructor
  · exact deriveName_stem_underscore_title "tanjiro_kamado".toList
      ".jpg".toList (by decide) (by decide) (by decide)
  · rfl

/-! ## Claims C9 and C10: loader invariants -/

/-- Helper for C10: the per-file loop, run from any accumulator, appends
exactly one encoding (the selected one) and one derived name per enrolled
file, in listing order. -/
theorem foldlM_enroll_aligned (env : LoaderEnv) (l : List String)
    (acc r : List Emb × List String)
    (h : l.foldlM (fun a g => (processFile env a g).map Prod.fst) acc
      = .ok r) :
    r.1 = acc.1 ++
      (l.filter (fun f => isImageFile f && (selEnc env f).isSome)).map
        (fun f => (selEnc env f).getD []) ∧
    r.2 = acc.2 ++
      (l.filter (fun f => isImageFile f && (selEnc env f).isSome)).map
        deriveName := by
  induction l generalizing acc with
  | nil =>
    simp only [List.foldlM_nil] at h
    have hr : acc = r := by
      simpa [pure, Except.pure] using h
    subst hr
    simp
  | cons f rest ih =>
    rw [List.foldlM_cons] at h
    by_cases himg : isImageFile f
    · cases hld : env.loadImage f with
      | error e =>
        rw [show (processFile env acc f).map Prod.fst = .error e by
            simp [processFile, himg, hld, Except.map],
          except_error_bind] at h
        exact absurd h (by simp)
      | ok img =>
        cases hA : env.face_encodings img none with
        | nil =>
          cases hA2 : env.face_encodings img
              (some (env.face_locations img 2 "hog")) with
          | nil =>
            rw [show (processFile env acc f).map Prod.fst = .ok acc by
                simp [processFile, himg, hld, hA, hA2, Except.map],
              except_ok_bind] at h
            have hsel : selEnc env f = none := by
              simp [selEnc, hld, hA, hA2]
            have := ih acc h
            simpa [List.filter_cons, himg, hsel] using this
          | cons x xs =>
            rw [show (processFile env acc f).map Prod.fst
                  = .ok (acc.1 ++ [x], acc.2 ++ [deriveName f]) by
                simp [processFile, himg, hld, hA, hA2, Except.map],
              except_ok_bind] at h
            have hsel : selEnc env f = some x := by
              simp [selEnc, hld, hA, hA2]
            have hrec := ih (acc.1 ++ [x], acc.2 ++ [deriveName f]) h
            simp only [List.filter_cons, himg, hsel, Option.isSome_some,
              Bool.and_self, if_true, List.map_cons, Option.getD_some]
            constructor
            · rw [hrec.1]
              simp
            · rw [hrec.2]
              simp
        | cons x xs =>
          rw [show (processFile env acc f).map Prod.fst
                = .ok (acc.1 ++ [x], acc.2 ++ [deriveName f]) by
              simp [processFile, himg, hld, hA, Except.map],
            except_ok_bind] at h
          have hsel : selEnc env f = some x := by
            simp [selEnc, hld, hA]
          have hrec := ih (acc.1 ++ [x], acc.2 ++ [deriveName f]) h
          simp only [List.filter_cons, himg, hsel, Option.isSome_some,
            Bool.and_self, if_true, List.map_cons, Option.getD_some]
          constructor
          · rw [hrec.1]
            simp
          · rw [hrec.2]
            simp
    · rw [show (processFile env acc f).map Prod.fst = .ok acc by
          simp [processFile, himg, Except.map],
        except_ok_bind] at h
      have himg2 : isImageFile f = false := by
        simpa using himg
      have := ih acc h
      simpa [List.filter_cons, himg2] using this

/-- C10: Whenever `load_training_data` returns, the two returned sequences
have equal length and are index-aligned: position i of the name sequence is
the name derived from the i-th enrolled file, and position i of the
encoding sequence is the encoding selected from that same file. -/
theorem load_training_data_aligned (env : LoaderEnv)
    (encs : List Emb) (names : List String)
    (h : load_training_data env = .ok (encs, names)) :
    encs.length = names.length ∧
    names = (enrolledFiles env).map deriveName ∧
    encs = (enrolledFiles env).map (fun f => (selEnc env f).getD []) := by
  by_cases hdir : env.dirExists
  · have hfold : env.listing.foldlM
        (fun a g => (processFile env a g).map Prod.fst) ([], []) =
        .ok (encs, names) := by
      simpa [load_training_data, hdir] using h
    have hrec := foldlM_enroll_aligned env env.listing ([], []) (encs, names)
      hfold
    have he : encs =
        (enrolledFiles env).map (fun f => (selEnc env f).getD []) := by
      simpa [enrolledFiles, hdir] using hrec.1
    have hn : names = (enrolledFiles env).map deriveName := by
      simpa [enrolledFiles, hdir] using hrec.2
    refine ⟨?_, hn, he⟩
    rw [he, hn]
    simp
  · have h0 : (Except.ok ([], []) : Except String (List Emb × List String))
        = Except.ok (encs, names) := by
      simpa [load_training_data, hdir] using h
    cases h0
    simp [enrolledFiles, hdir]

/-- C10 witness: a one-file directory that enrolls successfully. -/
theorem load_training_data_aligned_witness :
    ([[(7 : ℚ)]] : List Emb).length = ["Tanjiro Kamado"].length ∧
    ["Tanjiro Kamado"] =
      (enrolledFiles
        { dirExists := true, listing := ["tanjiro_kamado.jpg"],
          loadImage := fun _ => .ok 0,
          face_encodings := fun _ _ => [[(7 : ℚ)]],
          face_locations := fun _ _ _ => [] }).map deriveName ∧
    ([[(7 : ℚ)]] : List Emb) =
      (enrolledFiles
        { dirExists := true, listing := ["tanjiro_kamado.jpg"],
          loadImage := fun _ => .ok 0,
          face_encodings := fun _ _ => [[(7 : ℚ)]],
          face_locations := fun _ _ _ => [] }).map
        (fun f => (selEnc
          { dirExists := true, listing := ["tanjiro_kamado.jpg"],
            loadImage := fun _ => .ok 0,
            face_encodings := fun _ _ => [[(7 : ℚ)]],
            face_locations := fun _ _ _ => [] } f).getD []) :=
  load_training_data_aligned
    { dirExists := true, listing := ["tanjiro_kamado.jpg"],
      loadImage := fun _ => .ok 0,
      face_encodings := fun _ _ => [[(7 : ℚ)]],
      face_locations := fun _ _ _ => [] }
    [[(7 : ℚ)]] ["Tanjiro Kamado"] (by rfl)

/-- Helper for C9: the per-file loop projected to (names, encoding count)
is insensitive to the embedding values the encoder returns; only the
emptiness pattern of its answers matters.  The two environments share the
directory data, may differ in the encoder outputs. -/
theorem foldlM_proj_congr (env1 env2 : LoaderEnv)
    (hload : ∀ f, env1.loadImage f = env2.loadImage f)
    (hA : ∀ img, (env1.face_encodings img none = [] ↔
      env2.face_encodings img none = []))
    (hB : ∀ img,
      (env1.face_encodings img
          (some (env1.face_locations img 2 "hog")) = [] ↔
        env2.face_encodings img
          (some (env2.face_locations img 2 "hog")) = []))
    (l : List String) (acc1 acc2 : List Emb × List String)
    (hn : acc1.2 = acc2.2) (hc : acc1.1.length = acc2.1.length) :
    (l.foldlM (fun a g => (processFile env1 a g).map Prod.fst) acc1).map
        (fun r => (r.2, r.1.length)) =
    (l.foldlM (fun a g => (processFile env2 a g).map Prod.fst) acc2).map
        (fun r => (r.2, r.1.length)) := by
  induction l generalizing acc1 acc2 with
  | nil =>
    simp [List.foldlM_nil, pure, Except.pure, Except.map, hn, hc]
  | cons f rest ih =>
    rw [List.foldlM_cons, List.foldlM_cons]
    by_cases himg : isImageFile f
    · cases hld : env1.loadImage f with
      | error e =>
        have hld2 : env2.loadImage f = .error e := by
          rw [← hload f]; exact hld
        rw [show (processFile env1 acc1 f).map Prod.fst = .error e by
            simp [processFile, himg, hld, Except.map],
          show (processFile env2 acc2 f).map Prod.fst = .error e by
            simp [processFile, himg, hld2, Except.map],
          except_error_bind, except_error_bind]
      | ok img =>
        have hld2 : env2.loadImage f = .ok img := by
          rw [← hload f]; exact hld
        cases h1 : env1.face_encodings img none with
        | nil =>
          have h2 : env2.face_encodings img none = [] := (hA img).mp h1
          cases h1r : env1.face_encodings img
              (some (env1.face_locations img 2 "hog")) with
          | nil =>
            have h2r : env2.face_encodings img
                (some (env2.face_locations img 2 "hog")) = [] :=
              (hB img).mp h1r
            rw [show (processFile env1 acc1 f).map Prod.fst = .ok acc1 by
                simp [processFile, himg, hld, h1, h1r, Except.map],
              show (processFile env2 acc2 f).map Prod.fst = .ok acc2 by
                simp [processFile, himg, hld2, h2, h2r, Except.map],
              except_ok_bind, except_ok_bind]
            exact ih acc1 acc2 hn hc
          | cons x xs =>
            have h2rne : env2.face_encodings img
                (some (env2.face_locations img 2 "hog")) ≠ [] := by
              intro hh
              have h0 := (hB img).mpr hh
              rw [h1r] at h0
              exact List.cons_ne_nil x xs h0
            cases h2r : env2.face_encodings img
                (some (env2.face_locations img 2 "hog")) with
            | nil => exact absurd h2r h2rne
            | cons y ys =>
              rw [show (processFile env1 acc1 f).map Prod.fst
                    = .ok (acc1.1 ++ [x], acc1.2 ++ [deriveName f]) by
                  simp [processFile, himg, hld, h1, h1r, Except.map],
                show (processFile env2 acc2 f).map Prod.fst
                    = .ok (acc2.1 ++ [y], acc2.2 ++ [deriveName f]) by
                  simp [processFile, himg, hld2, h2, h2r, Except.map],
                except_ok_bind, except_ok_bind]
              exact ih _ _ (by simp [hn]) (by simp [hc])
        | cons x xs =>
          have h2ne : env2.face_encodings img none ≠ [] := by
            intro hh
            have h0 := (hA img).mpr hh
            rw [h1] at h0
            exact List.cons_ne_nil x xs h0
          cases h2 : env2.face_encodings img none with
          | nil => exact absurd h2 h2ne
          | cons y ys =>
            rw [show (processFile env1 acc1 f).map Prod.fst
                  = .ok (acc1.1 ++ [x], acc1.2 ++ [deriveName f]) by
                simp [processFile, himg, hld, h1, Except.map],
              show (processFile env2 acc2 f).map Prod.fst
                  = .ok (acc2.1 ++ [y], acc2.2 ++ [deriveName f]) by
                simp [processFile, himg, hld2, h2, Except.map],
              except_ok_bind, except_ok_bind]
            exact ih _ _ (by simp [hn]) (by simp [hc])
    · rw [show (processFile env1 acc1 f).map Prod.fst = .ok acc1 by
          simp [processFile, himg, Except.map],
        show (processFile env2 acc2 f).map Prod.fst = .ok acc2 by
          simp [processFile, himg, Except.map],
        except_ok_bind, except_ok_bind]
      exact ih acc1 acc2 hn hc

/-- C9: Two runs of the loader on an unchanged directory (same directory
state, same listing, same image data) produce identical name sequences and
identical embedding counts, even when the external encoder returns
different embedding values between the runs, as long as it finds a face in
the same images (its answers are empty in one run exactly when they are
empty in the other). -/
theorem load_training_data_run_twice (env1 env2 : LoaderEnv)
    (hdir : env1.dirExists = env2.dirExists)
    (hlist : env1.listing = env2.listing)
    (hload : ∀ f, env1.loadImage f = env2.loadImage f)
    (hA : ∀ img, (env1.face_encodings img none = [] ↔
      env2.face_encodings img none = []))
    (hB : ∀ img,
      (env1.face_encodings img
          (some (env1.face_locations img 2 "hog")) = [] ↔
        env2.face_encodings img
          (some (env2.face_locations img 2 "hog")) = [])) :
    (load_training_data env1).map (fun r => (r.2, r.1.length)) =
    (load_training_data env2).map (fun r => (r.2, r.1.length)) := by
  by_cases hb : env1.dirExists
  · have hb2 : env2.dirExists = true := by rw [← hdir]; exact hb
    simp only [load_training_data, hb, hb2, Bool.not_true,
      Bool.false_eq_true, if_false]
    rw [hlist]
    exact foldlM_proj_congr env1 env2 hload hA hB env2.listing
      ([], []) ([], []) rfl rfl
  · have hb1 : env1.dirExists = false := by simpa using hb
    have hb2 : env2.dirExists = false := by rw [← hdir]; exact hb1
    simp [load_training_data, hb1, hb2]

/-- C9 witness: two environments sharing the directory and listing, whose
encoders return different embedding values for the same single image
file; the projected results coincide. -/
theorem load_training_data_run_twice_witness :
    (load_training_data
        { dirExists := true, listing := ["tanjiro_kamado.jpg"],
          loadImage := fun _ => .ok 0,
          face_encodings := fun _ _ => [[(1 : ℚ)]],
          face_locations := fun _ _ _ => [] }).map
      (fun r => (r.2, r.1.length)) =
    (load_training_data
        { dirExists := true, listing := ["tanjiro_kamado.jpg"],
          loadImage := fun _ => .ok 0,
          face_encodings := fun _ _ => [[(2 : ℚ)]],
          face_locations := fun _ _ _ => [] }).map
      (fun r => (r.2, r.1.length)) :=
  load_training_data_run_twice
    { dirExists := true, listing := ["tanjiro_kamado.jpg"],
      loadImage := fun _ => .ok 0,
      face_encodings := fun _ _ => [[(1 : ℚ)]],
      face_locations := fun _ _ _ => [] }
    { dirExists := true, listing := ["tanjiro_kamado.jpg"],
      loadImage := fun _ => .ok 0,
      face_encodings := fun _ _ => [[(2 : ℚ)]],
      face_locations := fun _ _ _ => [] }
    rfl rfl (fun _ => rfl) (fun _ => by simp) (fun _ => by simp)
